import Mathlib

/-!
Shallow embedding of `elastica/modules/constraints.py` (PyElastica constraint
module): the `_Constraint` builder, its `using` / `id` / `instantiate`
methods, and the `Constraints` mixin operations `constrain`,
`_finalize_constraints`, `_constrain_values`, `_constrain_rates`.

Numpy arrays are modelled through an explicit heap of cells, so that
`.copy()` (fresh cell allocation) is distinguishable from aliasing, and
mutation of the live system state is an explicit heap write.  A numpy
array slice along the last axis (`arr[..., idx]`) is abstracted to one
opaque integer value per slice, so a cell's content is a list of slice
values.  Python exceptions are the error side of `Except`.
-/

namespace Elastica

/-- One opaque value standing for the content of one slice (a position
column or a director layer) of a numpy array. -/
abbrev Val := Int

/-- The store of numpy array objects: cell `r` holds the list of slice
values of array `r`.  Allocation appends a cell; `arr.copy()` allocates. -/
structure Heap where
  cells : List (List Val)
deriving Repr, DecidableEq

/-- Number of allocated cells. -/
def Heap.size (h : Heap) : Nat := h.cells.length

/-- Content of the array behind reference `r` (a dangling reference reads
as the empty content). -/
def Heap.read (h : Heap) (r : Nat) : List Val := (h.cells[r]?).getD []

/-- Allocate a fresh array cell with content `c`; returns the new heap and
the fresh reference. -/
def Heap.alloc (h : Heap) (c : List Val) : Heap × Nat :=
  (⟨h.cells ++ [c]⟩, h.cells.length)

/-- In-place mutation of the array behind reference `r` (what the live
simulation does to `position_collection` between steps). -/
def Heap.write (h : Heap) (r : Nat) (c : List Val) : Heap :=
  ⟨h.cells.set r c⟩

/-- A registered system (rod-like object): references into the heap for its
`position_collection` and `director_collection`, and whether the object has
the `ring_rod_flag` attribute (the `hasattr` test in
`_finalize_constraints`). -/
structure System where
  posRef : Nat
  dirRef : Nat
  has_ring_rod_flag : Bool
deriving Repr, DecidableEq

/-- Python runtime values appearing as constructor arguments. -/
inductive PyVal where
  | arr (r : Nat)
  | sys (s : System)
  | int (n : Int)
  | str (s : String)
deriving Repr, DecidableEq

/-- The Python exceptions raised by the constraint module and by user
constructor bodies. -/
inductive PyExc where
  | typeError (msg : String)
  | indexError (msg : String)
  | runtimeError (msg : String)
  | assertionError (msg : String)
  | valueError (msg : String)
deriving Repr, DecidableEq

/-- The record of one behavior-constructor invocation
`cls(*positions, *directors, *args, _system=system, **kwargs)`: the flat
positional argument list and the keyword arguments in call order. -/
structure CtorCall where
  args : List PyVal
  kwargs : List (String × PyVal)
deriving Repr, DecidableEq

/-- A boundary-condition class object: its name, whether
`issubclass(cls, ConstraintBase)` holds, and the outcome of running its
(user-defined) `init` body on a given call. -/
structure BCClass where
  name : String
  subclassOfConstraintBase : Bool
  initResult : CtorCall → Except PyExc Unit

/-- A constructed boundary-condition instance: its class name and the
constructor call that built it (the instance keeps whatever `init`
stored, abstracted as the call record). -/
structure BCInstance where
  clsName : String
  call : CtorCall
deriving Repr, DecidableEq

/-- The configuration stored on a `_Constraint` builder by `using`:
`_bc_cls`, `constrained_position_idx`, `constrained_director_idx`,
`_args`, `_kwargs`.  `none` for an index set models the default `None`. -/
structure UsingConfig where
  bc_cls : BCClass
  constrained_position_idx : Option (List Nat)
  constrained_director_idx : Option (List Nat)
  args : List PyVal
  kwargs : List (String × PyVal)

/-- The `_Constraint` builder: `_sys_idx` plus the optionally-present
configuration attributes (absent until `using` is called; the `hasattr`
test in `instantiate` is `config = none`). -/
structure _Constraint where
  sys_idx : Nat
  config : Option UsingConfig

/-- Message of the `assert issubclass(cls, ConstraintBase)` failure in
`_Constraint.using`. -/
def invalidConstraintMsg (clsName : String) : String :=
  clsName ++ " is not a valid constraint. Constraint must be driven from ConstraintBase."

/-- `_Constraint.using(cls, *args, constrained_position_idx=None,
constrained_director_idx=None, **kwargs)`: asserts the subclass check,
stores the configuration and returns `self`. -/
def _Constraint.using (self : _Constraint) (cls : BCClass) (args : List PyVal)
    (constrained_position_idx : Option (List Nat))
    (constrained_director_idx : Option (List Nat))
    (kwargs : List (String × PyVal)) : Except PyExc _Constraint :=
  if cls.subclassOfConstraintBase then
    .ok { self with
          config := some ⟨cls, constrained_position_idx, constrained_director_idx,
                          args, kwargs⟩ }
  else
    .error (.assertionError (invalidConstraintMsg cls.name))

/-- `_Constraint.id()`. -/
def _Constraint.id (self : _Constraint) : Nat := self.sys_idx

/-- Python truthiness of a `ConstrainingIndex` value: `None` and the empty
tuple are falsy, a non-empty tuple is truthy (the `if
self.constrained_position_idx` guard). -/
def idxTruthy : Option (List Nat) → Bool
  | none => false
  | some l => !l.isEmpty

/-- Message of the numpy `IndexError` for an out-of-bounds slice index. -/
def oobSliceMsg : String := "index out of bounds for axis"

/-- The list comprehension
`[system.position_collection[..., idx].copy() for idx in idxs]`: reads the
slice at each index (numpy raises `IndexError` when out of range) and
allocates a fresh one-slice cell for each copy.  Returns the copy
references in index order and the grown heap. -/
def copySlices (h : Heap) (src : Nat) : List Nat → Except PyExc (List Nat × Heap)
  | [] => .ok ([], h)
  | i :: rest =>
    match (h.read src)[i]? with
    | none => .error (.indexError oobSliceMsg)
    | some v =>
      let a := h.alloc [v]
      match copySlices a.1 src rest with
      | .ok (rs, h2) => .ok (a.2 :: rs, h2)
      | .error e => .error e

/-- Message of the `RuntimeError` raised by `instantiate` when `using` was
never called (`hasattr(self, "_bc_cls")` fails). -/
def noBCMsg (sysIdx : Nat) : String :=
  "No boundary condition provided to constrain rodid " ++ toString sysIdx ++
  ", but a BC was intended. Did youforget to call the `using` method?"

/-- Message of the `TypeError` that `instantiate` re-raises after catching
`TypeError` or `IndexError` from the behavior constructor. -/
def bcConstructionMsg : String :=
  "Unable to construct boundary condition class. Note that:\n" ++
  "1. Any rod properties needed should be placed first\n" ++
  "in the boundary_condition init like so (pos_one, pos_two, <other_args>)\n" ++
  "2. Number of requested position and directors such as (1, 2) should match\n" ++
  "the init method. eg MyBC init (pos_one, director_one, director_two)\n" ++
  "should have the `using` call as .using(MyBC, positions=(1,), directors=(1,-1))\n"

/-- The position-copy step of `instantiate`: guarded by truthiness of
`constrained_position_idx`, else the empty list with the heap unchanged. -/
def posCopyStep (cfg : UsingConfig) (system : System) (h : Heap) :
    Except PyExc (List Nat × Heap) :=
  if idxTruthy cfg.constrained_position_idx then
    copySlices h system.posRef (cfg.constrained_position_idx.getD [])
  else .ok ([], h)

/-- The director-copy step of `instantiate`, analogous to `posCopyStep`. -/
def dirCopyStep (cfg : UsingConfig) (system : System) (h : Heap) :
    Except PyExc (List Nat × Heap) :=
  if idxTruthy cfg.constrained_director_idx then
    copySlices h system.dirRef (cfg.constrained_director_idx.getD [])
  else .ok ([], h)

/-- `_Constraint.instantiate(system)`: raises `RuntimeError` if `using` was
never called; copies the constrained position and director slices; calls
`self._bc_cls(*positions, *directors, *self._args, _system=system,
**self._kwargs)`; re-raises `TypeError`/`IndexError` from the constructor
as the guidance `TypeError`; other exceptions propagate. -/
def _Constraint.instantiate (self : _Constraint) (system : System) (h : Heap) :
    Except PyExc (BCInstance × Heap) :=
  match self.config with
  | none => .error (.runtimeError (noBCMsg self.id))
  | some cfg =>
    match posCopyStep cfg system h with
    | .error e => .error e
    | .ok (posRefs, h1) =>
      match dirCopyStep cfg system h1 with
      | .error e => .error e
      | .ok (dirRefs, h2) =>
        let call : CtorCall :=
          ⟨posRefs.map PyVal.arr ++ dirRefs.map PyVal.arr ++ cfg.args,
           ("_system", PyVal.sys system) :: cfg.kwargs⟩
        match cfg.bc_cls.initResult call with
        | .ok _ => .ok (⟨cfg.bc_cls.name, call⟩, h2)
        | .error (.typeError _) => .error (.typeError bcConstructionMsg)
        | .error (.indexError _) => .error (.typeError bcConstructionMsg)
        | .error e => .error e

/-- The simulator as the constraint module sees it: the registered systems
in index order (`self._systems`), the indices of the memory blocks yielded
by `self.blocks()`, and the staged `self._constraints_list`. -/
structure SystemCollection where
  systems : List System
  blockIdxs : List Nat
  constraints_list : List _Constraint

/-- `Constraints.constrain(system)` with the system already resolved to its
index: stages a fresh `_Constraint` and returns it. -/
def constrain (sc : SystemCollection) (sys_idx : Nat) :
    SystemCollection × _Constraint :=
  let c : _Constraint := ⟨sys_idx, none⟩
  ({ sc with constraints_list := sc.constraints_list ++ [c] }, c)

/-- Modelled from the spec: `_ConstrainPeriodicBoundaries` (defined in
`elastica._synchronize_periodic_boundary`, outside this module) is the
periodic-boundary synchronizer constraint class; it is a `ConstraintBase`
subclass whose constructor is applied to the memory-block system with no
user-supplied arguments and succeeds. -/
def _ConstrainPeriodicBoundaries : BCClass :=
  ⟨"_ConstrainPeriodicBoundaries", true, fun _ => .ok ()⟩

/-- Message of the `ValueError` raised by `_get_sys_idx_if_valid` for a
system that was never registered. -/
def unregisteredMsg : String := "System was not added to the simulator"

/-- The ring-rod injection loop of `_finalize_constraints`:
`for block in self.blocks(): if hasattr(block, "ring_rod_flag"):
self.constrain(self._systems[idx]).using(_ConstrainPeriodicBoundaries)`.
Each injected builder is staged by `constrain` and configured in place by
`using`. -/
def injectPeriodicBoundaries (sc : SystemCollection) :
    List Nat → Except PyExc SystemCollection
  | [] => .ok sc
  | i :: rest =>
    match sc.systems[i]? with
    | none => .error (.valueError unregisteredMsg)
    | some s =>
      if s.has_ring_rod_flag then
        match (_Constraint.mk i none).using _ConstrainPeriodicBoundaries []
            none none [] with
        | .ok c =>
          injectPeriodicBoundaries
            { sc with constraints_list := sc.constraints_list ++ [c] } rest
        | .error e => .error e
      else
        injectPeriodicBoundaries sc rest

/-- The list comprehension building `self._constraints_operators`:
`[(constraint.id(), constraint.instantiate(self._systems[constraint.id()]))
for constraint in self._constraints_list]`, threading the heap; the first
raised exception aborts the comprehension. -/
def buildOperators (systems : List System) (h : Heap) :
    List _Constraint → Except PyExc (List (Nat × BCInstance) × Heap)
  | [] => .ok ([], h)
  | c :: rest =>
    match systems[c.id]? with
    | none => .error (.indexError "list index out of range")
    | some s =>
      match c.instantiate s h with
      | .error e => .error e
      | .ok (bc, h1) =>
        match buildOperators systems h1 rest with
        | .ok (ops, h2) => .ok ((c.id, bc) :: ops, h2)
        | .error e => .error e

/-- The sort key order of
`self._constraints_operators.sort(key=lambda x: x[0])`. -/
def opKeyLe (a b : Nat × BCInstance) : Prop := a.1 ≤ b.1

instance : DecidableRel opKeyLe := fun a b => Nat.decLe a.1 b.1

instance : IsTotal (Nat × BCInstance) opKeyLe := ⟨fun a b => Nat.le_total a.1 b.1⟩

instance : IsTrans (Nat × BCInstance) opKeyLe :=
  ⟨fun _ _ _ h1 h2 => Nat.le_trans h1 h2⟩

/-- `list.sort(key=lambda x: x[0])`: Python's sort is stable, embedded as
the stable insertion sort on the key order. -/
def sortOperators (ops : List (Nat × BCInstance)) : List (Nat × BCInstance) :=
  List.insertionSort opKeyLe ops

/-- One recorded dispatch call made by the module's dispatch entry points. -/
inductive DispatchEvent where
  | constrainValues (sys_id : Nat) (time : Rat)
  | constrainRates (sys_id : Nat) (time : Rat)
deriving Repr, DecidableEq

/-- `Constraints._constrain_values(time)`: iterates the sealed operator
list in order, calling `constraint.constrain_values(self._systems[sys_id],
time)` on each; recorded as the list of calls made. -/
def _constrain_values (ops : List (Nat × BCInstance)) (time : Rat) :
    List DispatchEvent :=
  ops.map (fun p => .constrainValues p.1 time)

/-- `Constraints._constrain_rates(time)`, analogous. -/
def _constrain_rates (ops : List (Nat × BCInstance)) (time : Rat) :
    List DispatchEvent :=
  ops.map (fun p => .constrainRates p.1 time)

/-- The outcome of a successful `_finalize_constraints`: the sealed, sorted
`_constraints_operators`, the final heap, and the dispatch calls made at
the end of finalization (before any integration-driver call). -/
structure FinalizedState where
  operators : List (Nat × BCInstance)
  heap : Heap
  trace : List DispatchEvent
deriving Repr, DecidableEq

/-- `Constraints._finalize_constraints()`: injects periodic-boundary
synchronizer builders for ring-flagged memory blocks, instantiates every
staged builder into `(id, operator)` pairs, sorts them by id (stable), and
immediately applies `_constrain_values` then `_constrain_rates` at time
`0.0`. -/
def _finalize_constraints (sc : SystemCollection) (h : Heap) :
    Except PyExc FinalizedState :=
  match injectPeriodicBoundaries sc sc.blockIdxs with
  | .error e => .error e
  | .ok sc1 =>
    match buildOperators sc1.systems h sc1.constraints_list with
    | .error e => .error e
    | .ok (ops, h1) =>
      let sorted := sortOperators ops
      .ok ⟨sorted, h1, _constrain_values sorted 0 ++ _constrain_rates sorted 0⟩

/-! Derived definitions used to state properties. -/

/-- The class name stored on a builder's configuration (empty string when
the builder was never configured). -/
def configName (c : _Constraint) : String :=
  (c.config.map (fun cfg => cfg.bc_cls.name)).getD ""

/-- The effective list of indices the copy steps iterate over: the stored
list when it is truthy, the empty list when it is `None` or empty. -/
def effIdxs (o : Option (List Nat)) : List Nat :=
  if idxTruthy o then o.getD [] else []

/-- The builder the ring-rod injection loop stages for block index `i`
(the result of `constrain(...).using(_ConstrainPeriodicBoundaries)`). -/
def pbBuilder (i : Nat) : _Constraint :=
  ⟨i, some ⟨_ConstrainPeriodicBoundaries, none, none, [], []⟩⟩

/-- Whether the system at index `i` of the registry carries the ring-rod
flag. -/
def ringFlagged (systems : List System) (i : Nat) : Bool :=
  ((systems[i]?).map System.has_ring_rod_flag).getD false

/-! Concrete sample data for witnesses. -/

/-- A sample user boundary-condition class whose constructor succeeds. -/
def sampleBC : BCClass := ⟨"SampleBC", true, fun _ => .ok ()⟩

/-- A sample class that is not a `ConstraintBase` subclass. -/
def notABC : BCClass := ⟨"NotABC", false, fun _ => .ok ()⟩

/-- A sample class whose constructor body raises an `IndexError` unrelated
to argument arity. -/
def raisingBC : BCClass :=
  ⟨"RaisingBC", true, fun _ => .error (.indexError "unrelated body error")⟩

/-- Sample system `i` of the three-system scenario. -/
def sysA (i : Nat) : System := ⟨2 * i, 2 * i + 1, false⟩

/-- Heap of the three-system scenario: position and director cells for
systems 0, 1, 2. -/
def heapA : Heap := ⟨[[1, 2], [10, 11], [3, 4], [12, 13], [5, 6], [14, 15]]⟩

/-- A configured sample builder on system `i` constraining position
index 0. -/
def bOn (i : Nat) : _Constraint := ⟨i, some ⟨sampleBC, some [0], none, [], []⟩⟩

/-- The scenario of the spec: three systems, a constraint attached to
system 2 and then one to system 0. -/
def scA : SystemCollection := ⟨[sysA 0, sysA 1, sysA 2], [], [bOn 2, bOn 0]⟩

/-- A ring-flagged memory-block system. -/
def sysR : System := ⟨0, 1, true⟩

/-- The ring scenario: one ring-flagged block, no user constraints. -/
def scR : SystemCollection := ⟨[sysR], [0], []⟩

/-- Heap of the ring scenario. -/
def heapR : Heap := ⟨[[7, 8], [9]]⟩

/-- A builder constraining position index 0 and director index 1 of
system 0, used for the snapshot-isolation witness. -/
def cC2 : _Constraint := ⟨0, some ⟨sampleBC, some [0], some [1], [], []⟩⟩

/-- The builder state after the first `using` call of the overwrite
witness. -/
def cAfterFirstUsing : _Constraint := ⟨1, some ⟨sampleBC, some [0], none, [], []⟩⟩

/-- An unconfigured builder on system 1. -/
def cNoCfg : _Constraint := ⟨1, none⟩

/-- A collection whose second staged builder was never configured. -/
def scUnconfigured : SystemCollection :=
  ⟨[sysA 0, sysA 1, sysA 2], [], [bOn 0, cNoCfg]⟩

/-- Operator built for `bOn 2` in the three-system scenario. -/
def bcA2 : BCInstance :=
  ⟨"SampleBC", ⟨[.arr 6], [("_system", .sys (sysA 2))]⟩⟩

/-- Operator built for `bOn 0` in the three-system scenario. -/
def bcA0 : BCInstance :=
  ⟨"SampleBC", ⟨[.arr 7], [("_system", .sys (sysA 0))]⟩⟩

/-- The unsorted operator pairs of the three-system scenario, in builder
registration order. -/
def opsA : List (Nat × BCInstance) := [(2, bcA2), (0, bcA0)]

/-- The heap after instantiating the three-system scenario. -/
def h1A : Heap := ⟨heapA.cells ++ [[5], [1]]⟩

/-- The finalized state of the three-system scenario. -/
def fsA : FinalizedState :=
  ⟨[(0, bcA0), (2, bcA2)], h1A,
   [.constrainValues 0 0, .constrainValues 2 0,
    .constrainRates 0 0, .constrainRates 2 0]⟩

/-- The finalized state of the ring scenario. -/
def fsR : FinalizedState :=
  ⟨[(0, ⟨"_ConstrainPeriodicBoundaries", ⟨[], [("_system", .sys sysR)]⟩⟩)],
   heapR, [.constrainValues 0 0, .constrainRates 0 0]⟩

/-- The configuration of the snapshot-isolation witness builder. -/
def cfgC2 : UsingConfig := ⟨sampleBC, some [0], some [1], [], []⟩

/-- The operator built from `cC2` in the snapshot-isolation witness. -/
def bcC2 : BCInstance :=
  ⟨"SampleBC", ⟨[.arr 6, .arr 7], [("_system", .sys (sysA 0))]⟩⟩

/-- The heap after instantiating `cC2`. -/
def hC2 : Heap := ⟨heapA.cells ++ [[1], [11]]⟩

/-! Heap lemmas. -/

theorem Heap.read_write_ne (h : Heap) (t r : Nat) (c : List Val) (hne : t ≠ r) :
    (h.write t c).read r = h.read r := by
  simp only [Heap.read, Heap.write, List.getElem?_set_ne hne]

theorem Heap.read_append (h : Heap) (l : List (List Val)) (r : Nat)
    (hr : r < h.size) : Heap.read ⟨h.cells ++ l⟩ r = h.read r := by
  simp only [Heap.read, List.getElem?_append_left hr]

theorem Heap.read_some_lt (h : Heap) (r i : Nat) (v : Val)
    (hv : (h.read r)[i]? = some v) : r < h.size := by
  by_contra hge
  have hnone : h.cells[r]? = none :=
    List.getElem?_eq_none_iff.mpr (Nat.le_of_not_lt hge)
  simp [Heap.read, hnone] at hv

/-! `copySlices` lemmas: the copies are fresh cells past the old heap end,
old cells are untouched, and each copy holds the slice it was read from. -/

theorem copySlices_spec (src : Nat) :
    ∀ (idxs : List Nat) (h h2 : Heap) (rs : List Nat),
      copySlices h src idxs = .ok (rs, h2) →
      h.size ≤ h2.size ∧
      (∀ r ∈ rs, h.size ≤ r ∧ r < h2.size) ∧
      (∀ t, t < h.size → h2.read t = h.read t) ∧
      List.Forall₂ (fun r i => h2.read r = [((h.read src)[i]?).getD 0]) rs idxs
  | [], h, h2, rs, hok => by
    simp only [copySlices] at hok
    cases hok
    exact ⟨Nat.le_refl _, by simp, fun t _ => rfl, List.Forall₂.nil⟩
  | i :: rest, h, h2, rs, hok => by
    simp only [copySlices] at hok
    split at hok
    · cases hok
    rename_i v hv
    split at hok
    swap
    · cases hok
    rename_i p rs1 h21 hrec
    cases hok
    have hsrc : src < h.size := Heap.read_some_lt h src i v hv
    obtain ⟨ih1, ih2, ih3, ih4⟩ := copySlices_spec src rest _ _ _ hrec
    have halloc : (h.alloc [v]).1 = Heap.mk (h.cells ++ [[v]]) := rfl
    have hsize : (h.alloc [v]).1.size = h.size + 1 := by
      simp [halloc, Heap.size]
    have hreadold : ∀ t, t < h.size → (h.alloc [v]).1.read t = h.read t := by
      intro t ht
      rw [halloc]
      exact Heap.read_append h [[v]] t ht
    refine ⟨by omega, ?_, ?_, ?_⟩
    · intro r hr
      rcases List.mem_cons.mp hr with hhd | htl
      · subst hhd
        have hval : (h.alloc [v]).2 = h.size := rfl
        rw [hval]
        exact ⟨Nat.le_refl _, by omega⟩
      · have := ih2 r htl
        omega
    · intro t ht
      rw [ih3 t (by omega), hreadold t ht]
    · constructor
      · have hval : (h.alloc [v]).2 = h.size := rfl
        have hfresh : h2.read (h.alloc [v]).2 = [v] := by
          rw [ih3 (h.alloc [v]).2 (by rw [hsize, hval]; omega)]
          simp [halloc, Heap.alloc, Heap.read, hval, Heap.size,
            List.getElem?_concat_length]
        show h2.read (h.alloc [v]).2 = [((h.read src)[i]?).getD 0]
        rw [hfresh, hv]
        rfl
      · refine List.Forall₂.imp ?_ ih4
        intro r j hrj
        rwa [hreadold src hsrc] at hrj

/-! Copy-step lemmas: each guarded copy step behaves like `copySlices` on
the effective index list. -/

theorem posCopyStep_spec (cfg : UsingConfig) (system : System) (h h2 : Heap)
    (rs : List Nat) (hok : posCopyStep cfg system h = .ok (rs, h2)) :
    h.size ≤ h2.size ∧
    (∀ r ∈ rs, h.size ≤ r ∧ r < h2.size) ∧
    (∀ t, t < h.size → h2.read t = h.read t) ∧
    List.Forall₂ (fun r i => h2.read r = [((h.read system.posRef)[i]?).getD 0])
      rs (effIdxs cfg.constrained_position_idx) := by
  rw [posCopyStep] at hok
  rw [effIdxs]
  split at hok
  · rename_i ht
    rw [if_pos ht]
    exact copySlices_spec system.posRef _ h h2 rs hok
  · rename_i ht
    rw [if_neg ht]
    cases hok
    exact ⟨Nat.le_refl _, by simp, fun t _ => rfl, List.Forall₂.nil⟩

theorem dirCopyStep_spec (cfg : UsingConfig) (system : System) (h h2 : Heap)
    (rs : List Nat) (hok : dirCopyStep cfg system h = .ok (rs, h2)) :
    h.size ≤ h2.size ∧
    (∀ r ∈ rs, h.size ≤ r ∧ r < h2.size) ∧
    (∀ t, t < h.size → h2.read t = h.read t) ∧
    List.Forall₂ (fun r i => h2.read r = [((h.read system.dirRef)[i]?).getD 0])
      rs (effIdxs cfg.constrained_director_idx) := by
  rw [dirCopyStep] at hok
  rw [effIdxs]
  split at hok
  · rename_i ht
    rw [if_pos ht]
    exact copySlices_spec system.dirRef _ h h2 rs hok
  · rename_i ht
    rw [if_neg ht]
    cases hok
    exact ⟨Nat.le_refl _, by simp, fun t _ => rfl, List.Forall₂.nil⟩

/-! Characterization of a successful `instantiate`. -/

theorem instantiate_ok_spec (self : _Constraint) (cfg : UsingConfig)
    (system : System) (h : Heap) (bc : BCInstance) (h2 : Heap)
    (hcfg : self.config = some cfg)
    (hok : self.instantiate system h = .ok (bc, h2)) :
    ∃ (posRefs dirRefs : List Nat) (h1 : Heap),
      posCopyStep cfg system h = .ok (posRefs, h1) ∧
      dirCopyStep cfg system h1 = .ok (dirRefs, h2) ∧
      cfg.bc_cls.initResult
        ⟨posRefs.map PyVal.arr ++ dirRefs.map PyVal.arr ++ cfg.args,
         ("_system", PyVal.sys system) :: cfg.kwargs⟩ = .ok () ∧
      bc = ⟨cfg.bc_cls.name,
            ⟨posRefs.map PyVal.arr ++ dirRefs.map PyVal.arr ++ cfg.args,
             ("_system", PyVal.sys system) :: cfg.kwargs⟩⟩ := by
  obtain ⟨idx, cfgopt⟩ := self
  change cfgopt = some cfg at hcfg
  subst hcfg
  simp only [_Constraint.instantiate] at hok
  split at hok
  · cases hok
  rename_i posRefs h1 hpos
  split at hok
  · cases hok
  rename_i dirRefs h1' hdir
  split at hok
  · rename_i u hinit
    cases hok
    exact ⟨posRefs, dirRefs, h1, hpos, hdir, hinit, rfl⟩
  · cases hok
  · cases hok
  · cases hok

/-! Stability of the key sort: elements with a given key keep their
relative order, expressed by invariance of the per-key filter. -/

theorem filter_orderedInsert (k : Nat) (a : Nat × BCInstance) :
    ∀ l : List (Nat × BCInstance),
      (List.orderedInsert opKeyLe a l).filter (fun p => p.1 == k) =
      ((a :: l).filter (fun p => p.1 == k))
  | [] => rfl
  | b :: t => by
    by_cases hab : opKeyLe a b
    · rw [List.orderedInsert, if_pos hab]
    · rw [List.orderedInsert, if_neg hab]
      have hlt : b.1 < a.1 := Nat.lt_of_not_le hab
      have ih := filter_orderedInsert k a t
      by_cases hak : a.1 = k
      · have hbk : (b.1 == k) = false := by
          simp only [beq_eq_false_iff_ne, ne_eq]
          omega
        simp only [List.filter_cons, hbk, beq_iff_eq, hak, if_pos rfl,
          reduceIte] at ih ⊢
        rw [ih]
        simp [hbk, hak]
      · have hakb : (a.1 == k) = false := by simp [hak]
        simp only [List.filter_cons, hakb] at ih ⊢
        rw [ih]
        simp [hakb]

theorem filter_insertionSort (k : Nat) :
    ∀ l : List (Nat × BCInstance),
      (List.insertionSort opKeyLe l).filter (fun p => p.1 == k) =
      l.filter (fun p => p.1 == k)
  | [] => rfl
  | a :: t => by
    rw [List.insertionSort, filter_orderedInsert k a (List.insertionSort opKeyLe t)]
    simp only [List.filter_cons]
    rw [filter_insertionSort k t]

/-- C1: after any successful finalization, `_constraints_operators` is
sorted ascending by system index, and entries with equal system indices
keep their builder registration order (the per-index filter of the sorted
list equals that of the instantiation-order list). -/
theorem finalize_operators_sorted_stable
    (sc : SystemCollection) (h : Heap) (sc1 : SystemCollection)
    (ops : List (Nat × BCInstance)) (h1 : Heap) (fs : FinalizedState)
    (hinj : injectPeriodicBoundaries sc sc.blockIdxs = .ok sc1)
    (hb : buildOperators sc1.systems h sc1.constraints_list = .ok (ops, h1))
    (hf : _finalize_constraints sc h = .ok fs) :
    List.Sorted opKeyLe fs.operators ∧
    ∀ k, fs.operators.filter (fun p => p.1 == k) =
      ops.filter (fun p => p.1 == k) := by
  simp only [_finalize_constraints, hinj, hb] at hf
  cases hf
  exact ⟨List.sorted_insertionSort opKeyLe ops, fun k => filter_insertionSort k ops⟩

/-- C1 witness: the spec scenario — three systems, constraints registered
on system 2 then system 0 — finalizes to the sorted, stable operator list
with index order `[0, 2]`. -/
theorem finalize_operators_sorted_stable_witness :
    List.Sorted opKeyLe fsA.operators ∧
    (∀ k, fsA.operators.filter (fun p => p.1 == k) =
      opsA.filter (fun p => p.1 == k)) ∧
    fsA.operators.map Prod.fst = [0, 2] := by
  have happ := finalize_operators_sorted_stable scA heapA scA opsA h1A fsA
    rfl rfl rfl
  exact ⟨happ.1, happ.2, rfl⟩

/-- C2: the snapshots held inside a constructed constraint operator are
independent copies: writing any content to the owning system's live
position or director array after instantiation leaves every snapshot
argument of the operator unchanged. -/
theorem instantiate_snapshot_isolation
    (self : _Constraint) (cfg : UsingConfig) (system : System) (h : Heap)
    (bc : BCInstance) (h2 : Heap)
    (hcfg : self.config = some cfg)
    (hposv : system.posRef < h.size) (hdirv : system.dirRef < h.size)
    (hnonempty : idxTruthy cfg.constrained_position_idx = true ∨
      idxTruthy cfg.constrained_director_idx = true)
    (hok : self.instantiate system h = .ok (bc, h2))
    (r : Nat) (hr : PyVal.arr r ∈ bc.call.args)
    (hnotuser : PyVal.arr r ∉ cfg.args)
    (tgt : Nat) (htgt : tgt = system.posRef ∨ tgt = system.dirRef)
    (content : List Val) :
    (h2.write tgt content).read r = h2.read r := by
  obtain ⟨posRefs, dirRefs, h1, hp, hd, _, hbc⟩ :=
    instantiate_ok_spec self cfg system h bc h2 hcfg hok
  obtain ⟨p1, p2, _, _⟩ := posCopyStep_spec cfg system h h1 posRefs hp
  obtain ⟨_, d2, _, _⟩ := dirCopyStep_spec cfg system h1 h2 dirRefs hd
  subst hbc
  have hrge : h.size ≤ r := by
    simp only [List.mem_append] at hr
    rcases hr with (hrp | hrd) | hru
    · obtain ⟨r2, hr2, heq⟩ := List.mem_map.mp hrp
      cases heq
      exact (p2 r hr2).1
    · obtain ⟨r2, hr2, heq⟩ := List.mem_map.mp hrd
      cases heq
      exact Nat.le_trans p1 (d2 r hr2).1
    · exact absurd hru hnotuser
  have htlt : tgt < h.size := by
    rcases htgt with h' | h' <;> omega
  exact Heap.read_write_ne h2 tgt r content (by omega)

/-- C2 witness: after instantiating a builder constraining position index
0 and director index 1 of system 0, overwriting the live position array
leaves the position snapshot (reference 6) unchanged. -/
theorem instantiate_snapshot_isolation_witness :
    (hC2.write 0 [99, 98]).read 6 = hC2.read 6 ∧ hC2.read 6 = [1] := by
  refine ⟨?_, by decide⟩
  exact instantiate_snapshot_isolation cC2 ⟨sampleBC, some [0], some [1], [], []⟩
    (sysA 0) heapA bcC2 hC2 rfl (by decide) (by decide) (Or.inl rfl) rfl 6
    (by decide) (by decide) 0 (Or.inl rfl) [99, 98]

/-- C3: a successful finalization ends by dispatching, at simulated time
`0.0`, `constrain_values` on every operator and then `constrain_rates` on
every operator, exactly once each, before control returns to any caller
(so before any integration-driver call). -/
theorem finalize_initial_dispatch (sc : SystemCollection) (h : Heap)
    (fs : FinalizedState) (hf : _finalize_constraints sc h = .ok fs) :
    fs.trace =
      fs.operators.map (fun p => DispatchEvent.constrainValues p.1 0) ++
      fs.operators.map (fun p => DispatchEvent.constrainRates p.1 0) := by
  rw [_finalize_constraints] at hf
  split at hf
  · cases hf
  split at hf
  · cases hf
  cases hf
  rfl

/-- C3 witness: the three-system scenario's finalize trace is the value
dispatches at time 0 for indices 0 and 2 followed by the rate dispatches. -/
theorem finalize_initial_dispatch_witness :
    fsA.trace =
      fsA.operators.map (fun p => DispatchEvent.constrainValues p.1 0) ++
      fsA.operators.map (fun p => DispatchEvent.constrainRates p.1 0) :=
  finalize_initial_dispatch scA heapA fsA rfl

/-! Structure of the ring-rod injection loop. -/

theorem injectPB_ok_spec :
    ∀ (bl : List Nat) (sc sc1 : SystemCollection),
      injectPeriodicBoundaries sc bl = .ok sc1 →
      sc1.systems = sc.systems ∧ sc1.blockIdxs = sc.blockIdxs ∧
      sc1.constraints_list =
        sc.constraints_list ++
          (bl.filter (fun i => ringFlagged sc.systems i)).map pbBuilder
  | [], sc, sc1, hok => by
    simp only [injectPeriodicBoundaries] at hok
    cases hok
    simp
  | i :: rest, sc, sc1, hok => by
    simp only [injectPeriodicBoundaries] at hok
    split at hok
    · cases hok
    rename_i s hs
    have hrf : ringFlagged sc.systems i = s.has_ring_rod_flag := by
      simp [ringFlagged, hs]
    by_cases hflag : s.has_ring_rod_flag
    · rw [if_pos hflag] at hok
      split at hok
      swap
      · rename_i e habs
        cases habs
      rename_i c husing
      have hc : c = pbBuilder i := by
        have : ((_Constraint.mk i none).using _ConstrainPeriodicBoundaries []
            none none []) = .ok (pbBuilder i) := rfl
        rw [this] at husing
        cases husing
        rfl
      subst hc
      obtain ⟨ih1, ih2, ih3⟩ := injectPB_ok_spec rest _ sc1 hok
      refine ⟨ih1, ih2, ?_⟩
      rw [ih3]
      rw [List.filter_cons_of_pos (by rw [hrf]; exact hflag)]
      simp [List.append_assoc]
    · rw [if_neg hflag] at hok
      obtain ⟨ih1, ih2, ih3⟩ := injectPB_ok_spec rest sc sc1 hok
      refine ⟨ih1, ih2, ?_⟩
      rw [ih3]
      rw [List.filter_cons_of_neg (by rw [hrf]; simpa using hflag)]

/-- An unconfigured builder's `instantiate` raises the `RuntimeError`. -/
theorem instantiate_none (self : _Constraint) (system : System) (h : Heap)
    (hnone : self.config = none) :
    self.instantiate system h = .error (.runtimeError (noBCMsg self.id)) := by
  obtain ⟨idx, cfgopt⟩ := self
  change cfgopt = none at hnone
  subst hnone
  rfl

/-- `buildOperators` maps builders to operators one-for-one; counting
operator pairs with a given index and class name equals counting builders
with that bound index and configured class name. -/
theorem buildOperators_countP (systems : List System) (i : Nat) (nm : String) :
    ∀ (cs : List _Constraint) (h : Heap) (ops : List (Nat × BCInstance))
      (h2 : Heap), buildOperators systems h cs = .ok (ops, h2) →
      ops.countP (fun p => p.1 == i && p.2.clsName == nm) =
      cs.countP (fun c => c.sys_idx == i && configName c == nm)
  | [], h, ops, h2, hok => by
    simp only [buildOperators] at hok
    cases hok
    rfl
  | c :: rest, h, ops, h2, hok => by
    simp only [buildOperators] at hok
    split at hok
    · cases hok
    rename_i s hs
    split at hok
    · cases hok
    rename_i bc h1 hinst
    split at hok
    swap
    · cases hok
    rename_i p ops1 h21 hops1
    cases hok
    have ih := buildOperators_countP systems i nm rest h1 ops1 h2 hops1
    have hname : bc.clsName = configName c := by
      cases hcfg : c.config with
      | none =>
        rw [instantiate_none c s h hcfg] at hinst
        cases hinst
      | some cfg =>
        obtain ⟨_, _, _, _, _, _, hbc⟩ :=
          instantiate_ok_spec c cfg s h bc h1 hcfg hinst
        rw [hbc, configName, hcfg]
        rfl
    simp only [List.countP_cons, ih, _Constraint.id, hname]

/-! Counting the synchronizer entries staged by the injection loop. -/

theorem countP_pbBuilder_map (i : Nat) (l : List Nat) :
    (l.map pbBuilder).countP
      (fun c => c.sys_idx == i &&
        configName c == "_ConstrainPeriodicBoundaries") = l.count i := by
  rw [List.countP_map]
  rw [List.count]
  apply List.countP_congr
  intro j _
  simp [Function.comp, pbBuilder, configName, _ConstrainPeriodicBoundaries]

/-- C4: a successful finalization stages exactly one
`_ConstrainPeriodicBoundaries` operator for every memory block whose
system carries the ring-rod flag, bound to that block's system index, and
none for any other index, provided the block list has no duplicates and no
user builder was configured with the synchronizer class. -/
theorem finalize_ring_sync_count (sc : SystemCollection) (h : Heap)
    (fs : FinalizedState) (hf : _finalize_constraints sc h = .ok fs)
    (hnd : sc.blockIdxs.Nodup)
    (huser : ∀ c ∈ sc.constraints_list,
      configName c ≠ "_ConstrainPeriodicBoundaries")
    (i : Nat) :
    fs.operators.countP
      (fun p => p.1 == i && p.2.clsName == "_ConstrainPeriodicBoundaries") =
    if i ∈ sc.blockIdxs ∧ ringFlagged sc.systems i = true then 1 else 0 := by
  rw [_finalize_constraints] at hf
  split at hf
  · cases hf
  rename_i sc1 hinj
  split at hf
  · cases hf
  rename_i p ops h1 hb
  cases hf
  obtain ⟨hsys, _, hlist⟩ := injectPB_ok_spec sc.blockIdxs sc sc1 hinj
  have hsorted :
      (sortOperators ops).countP
        (fun p => p.1 == i && p.2.clsName == "_ConstrainPeriodicBoundaries") =
      ops.countP
        (fun p => p.1 == i && p.2.clsName == "_ConstrainPeriodicBoundaries") :=
    (List.perm_insertionSort opKeyLe ops).countP_eq _
  rw [hsorted, buildOperators_countP sc1.systems i "_ConstrainPeriodicBoundaries"
    sc1.constraints_list h ops h1 hb, hlist, List.countP_append]
  have huser0 : sc.constraints_list.countP
      (fun c => c.sys_idx == i &&
        configName c == "_ConstrainPeriodicBoundaries") = 0 := by
    rw [List.countP_eq_zero]
    intro c hc
    simp only [Bool.and_eq_true, beq_iff_eq, not_and]
    intro _
    exact huser c hc
  rw [huser0, Nat.zero_add, countP_pbBuilder_map]
  by_cases hmem : i ∈ sc.blockIdxs.filter (fun j => ringFlagged sc.systems j)
  · rw [List.count_eq_one_of_mem (hnd.filter _) hmem]
    rw [List.mem_filter] at hmem
    rw [if_pos ⟨hmem.1, hmem.2⟩]
  · rw [List.count_eq_zero_of_not_mem hmem]
    rw [List.mem_filter] at hmem
    rw [if_neg (fun hand => hmem ⟨hand.1, hand.2⟩)]

/-- C4 witness: the ring scenario — one ring-flagged memory block, no user
constraints — finalizes with exactly one synchronizer operator bound to
index 0 and none bound to index 1. -/
theorem finalize_ring_sync_count_witness :
    fsR.operators.countP
      (fun p => p.1 == 0 && p.2.clsName == "_ConstrainPeriodicBoundaries") = 1 ∧
    fsR.operators.countP
      (fun p => p.1 == 1 && p.2.clsName == "_ConstrainPeriodicBoundaries") = 0 := by
  constructor
  · rw [finalize_ring_sync_count scR heapR fsR rfl (by simp [scR])
      (by intro c hc; simp [scR] at hc) 0]
    decide
  · rw [finalize_ring_sync_count scR heapR fsR rfl (by simp [scR])
      (by intro c hc; simp [scR] at hc) 1]
    decide

/-! Failure of `buildOperators` in the presence of an unconfigured
builder. -/

theorem buildOperators_not_ok (systems : List System) :
    ∀ (cs : List _Constraint) (h : Heap), (∃ c ∈ cs, c.config = none) →
      ∀ res, buildOperators systems h cs ≠ .ok res
  | [], h, hex, res => by
    obtain ⟨c, hc, _⟩ := hex
    cases hc
  | c :: rest, h, hex, res => by
    intro hok
    simp only [buildOperators] at hok
    split at hok
    · cases hok
    rename_i s hs
    split at hok
    · cases hok
    rename_i bc h1 hinst
    split at hok
    swap
    · cases hok
    rename_i p ops1 h21 hops
    obtain ⟨c0, hc0, hnone⟩ := hex
    rcases List.mem_cons.mp hc0 with rfl | hmem
    · rw [instantiate_none c0 s h hnone] at hinst
      cases hinst
    · exact buildOperators_not_ok systems rest h1 ⟨c0, hmem, hnone⟩
        (ops1, h21) hops

/-- C5: if any staged builder was never configured by `using`, finalize
cannot succeed, and that builder's `instantiate` raises the
`RuntimeError` about the missing boundary condition. -/
theorem unconfigured_builder_fails (sc : SystemCollection) (h : Heap)
    (c : _Constraint) (hc : c ∈ sc.constraints_list)
    (hnone : c.config = none) :
    (∀ fs, _finalize_constraints sc h ≠ .ok fs) ∧
    ∀ (system : System) (h2 : Heap),
      c.instantiate system h2 = .error (.runtimeError (noBCMsg c.id)) := by
  constructor
  · intro fs hf
    rw [_finalize_constraints] at hf
    split at hf
    · cases hf
    rename_i sc1 hinj
    split at hf
    · cases hf
    rename_i p ops h1 hb
    obtain ⟨_, _, hlist⟩ := injectPB_ok_spec sc.blockIdxs sc sc1 hinj
    have hcmem : c ∈ sc1.constraints_list := by
      rw [hlist]
      exact List.mem_append_left _ hc
    exact buildOperators_not_ok sc1.systems sc1.constraints_list h
      ⟨c, hcmem, hnone⟩ (ops, h1) hb
  · intro system h2
    exact instantiate_none c system h2 hnone

/-- C5 witness: the collection whose second staged builder was never
configured cannot finalize, and that builder's `instantiate` raises the
`RuntimeError`. -/
theorem unconfigured_builder_fails_witness :
    cNoCfg.config = none ∧
    (∀ fs, _finalize_constraints scUnconfigured heapA ≠ .ok fs) ∧
    cNoCfg.instantiate (sysA 1) heapA =
      .error (.runtimeError (noBCMsg cNoCfg.id)) := by
  have happ := unconfigured_builder_fails scUnconfigured heapA cNoCfg
    (List.mem_cons_of_mem _ (List.mem_cons_self _ _)) rfl
  exact ⟨rfl, happ.1, happ.2 (sysA 1) heapA⟩

/-! Transporting per-copy read facts along later allocations. -/

theorem Forall₂_read_eq (h1 h2 : Heap)
    (hpres : ∀ t, t < h1.size → h2.read t = h1.read t)
    (v : Nat → List Val) :
    ∀ (rs idxs : List Nat), (∀ r ∈ rs, r < h1.size) →
      List.Forall₂ (fun r i => h1.read r = v i) rs idxs →
      List.Forall₂ (fun r i => h2.read r = v i) rs idxs
  | [], idxs, hb, hf => by
    cases hf
    exact .nil
  | r :: rs, idxs, hb, hf => by
    cases hf
    rename_i i idxs2 hrel hrest
    constructor
    · rw [hpres r (hb r (List.mem_cons_self _ _))]
      exact hrel
    · exact Forall₂_read_eq h1 h2 hpres v rs idxs2
        (fun x hx => hb x (List.mem_cons_of_mem _ hx)) hrest

/-- C6: the behavior constructor's call record is exactly: the position
snapshot copies (one per constrained position index, in order), then the
director snapshot copies (one per constrained director index, in order),
then the stored free-form positional arguments; and the keyword arguments
are the system back-reference followed by the stored keyword arguments. -/
theorem instantiate_ctor_arg_order (self : _Constraint) (cfg : UsingConfig)
    (system : System) (h : Heap) (bc : BCInstance) (h2 : Heap)
    (hcfg : self.config = some cfg)
    (hposv : system.posRef < h.size) (hdirv : system.dirRef < h.size)
    (hok : self.instantiate system h = .ok (bc, h2)) :
    ∃ posRefs dirRefs : List Nat,
      bc.call.args =
        posRefs.map PyVal.arr ++ dirRefs.map PyVal.arr ++ cfg.args ∧
      bc.call.kwargs = ("_system", PyVal.sys system) :: cfg.kwargs ∧
      List.Forall₂
        (fun r i => h2.read r = [((h.read system.posRef)[i]?).getD 0])
        posRefs (effIdxs cfg.constrained_position_idx) ∧
      List.Forall₂
        (fun r i => h2.read r = [((h.read system.dirRef)[i]?).getD 0])
        dirRefs (effIdxs cfg.constrained_director_idx) := by
  obtain ⟨posRefs, dirRefs, h1, hp, hd, _, hbc⟩ :=
    instantiate_ok_spec self cfg system h bc h2 hcfg hok
  obtain ⟨p1, p2, p3, p4⟩ := posCopyStep_spec cfg system h h1 posRefs hp
  obtain ⟨d1, d2, d3, d4⟩ := dirCopyStep_spec cfg system h1 h2 dirRefs hd
  subst hbc
  refine ⟨posRefs, dirRefs, rfl, rfl, ?_, ?_⟩
  · exact Forall₂_read_eq h1 h2 d3 _ posRefs _
      (fun r hr => (p2 r hr).2) p4
  · refine List.Forall₂.imp ?_ d4
    intro r i hrel
    rwa [p3 system.dirRef hdirv] at hrel

/-- C6 witness: the constructed snapshot-isolation operator's call record
is the two snapshot copies, then no free-form arguments, with the system
back-reference leading the keyword arguments. -/
theorem instantiate_ctor_arg_order_witness :
    ∃ posRefs dirRefs : List Nat,
      bcC2.call.args =
        posRefs.map PyVal.arr ++ dirRefs.map PyVal.arr ++ cfgC2.args ∧
      bcC2.call.kwargs = ("_system", PyVal.sys (sysA 0)) :: cfgC2.kwargs ∧
      List.Forall₂
        (fun r i => hC2.read r = [((heapA.read (sysA 0).posRef)[i]?).getD 0])
        posRefs (effIdxs cfgC2.constrained_position_idx) ∧
      List.Forall₂
        (fun r i => hC2.read r = [((heapA.read (sysA 0).dirRef)[i]?).getD 0])
        dirRefs (effIdxs cfgC2.constrained_director_idx) :=
  instantiate_ctor_arg_order cC2 cfgC2 (sysA 0) heapA bcC2 hC2 rfl
    (by decide) (by decide) rfl

/-- C7: when the behavior constructor raises any `TypeError` or
`IndexError` — from anywhere in its body — `instantiate` re-raises the
guidance `TypeError` about the argument-ordering convention. -/
theorem ctor_exception_wrapped (self : _Constraint) (cfg : UsingConfig)
    (system : System) (h : Heap) (posRefs : List Nat) (h1 : Heap)
    (dirRefs : List Nat) (h2 : Heap)
    (hcfg : self.config = some cfg)
    (hp : posCopyStep cfg system h = .ok (posRefs, h1))
    (hd : dirCopyStep cfg system h1 = .ok (dirRefs, h2))
    (e : PyExc)
    (he : cfg.bc_cls.initResult
      ⟨posRefs.map PyVal.arr ++ dirRefs.map PyVal.arr ++ cfg.args,
       ("_system", PyVal.sys system) :: cfg.kwargs⟩ = .error e)
    (hkind : (∃ m, e = .typeError m) ∨ ∃ m, e = .indexError m) :
    self.instantiate system h = .error (.typeError bcConstructionMsg) := by
  obtain ⟨idx, cfgopt⟩ := self
  change cfgopt = some cfg at hcfg
  subst hcfg
  simp only [_Constraint.instantiate, hp, hd]
  rcases hkind with ⟨m, rfl⟩ | ⟨m, rfl⟩ <;> simp only [he]

/-- C7 witness: a constructor that unconditionally raises an unrelated
`IndexError` is wrapped into the guidance `TypeError` by `instantiate`. -/
theorem ctor_exception_wrapped_witness :
    (_Constraint.instantiate ⟨0, some ⟨raisingBC, none, none, [], []⟩⟩
      (sysA 0) heapA) = .error (.typeError bcConstructionMsg) :=
  ctor_exception_wrapped ⟨0, some ⟨raisingBC, none, none, [], []⟩⟩
    ⟨raisingBC, none, none, [], []⟩ (sysA 0) heapA [] heapA [] heapA rfl rfl rfl
    (.indexError "unrelated body error") rfl
    (Or.inr ⟨"unrelated body error", rfl⟩)

/-- C8: `using` rejects, at configuration time, any class that is not a
`ConstraintBase` subclass, raising the assertion error; for a valid class
it stores the class, index sets and arguments on the builder and returns
it. -/
theorem using_capability_check (self : _Constraint) (cls : BCClass)
    (args : List PyVal) (cpi cdi : Option (List Nat))
    (kwargs : List (String × PyVal)) :
    (cls.subclassOfConstraintBase = false →
      self.using cls args cpi cdi kwargs =
        .error (.assertionError (invalidConstraintMsg cls.name))) ∧
    (cls.subclassOfConstraintBase = true →
      self.using cls args cpi cdi kwargs =
        .ok ⟨self.sys_idx, some ⟨cls, cpi, cdi, args, kwargs⟩⟩) := by
  constructor <;> intro hcase <;> simp [_Constraint.using, hcase]

/-- C8 witness: `using` with a non-`ConstraintBase` class fails with the
assertion error; with a valid class it stores the configuration. -/
theorem using_capability_check_witness :
    (notABC.subclassOfConstraintBase = false ∧
      cNoCfg.using notABC [] none none [] =
        .error (.assertionError (invalidConstraintMsg notABC.name))) ∧
    (sampleBC.subclassOfConstraintBase = true ∧
      cNoCfg.using sampleBC [] none none [] =
        .ok ⟨cNoCfg.sys_idx, some ⟨sampleBC, none, none, [], []⟩⟩) :=
  ⟨⟨rfl, (using_capability_check cNoCfg notABC [] none none []).1 rfl⟩,
   ⟨rfl, (using_capability_check cNoCfg sampleBC [] none none []).2 rfl⟩⟩

/-- C9: a `None` constrained index set behaves exactly like an empty one —
`instantiate` gives identical results in the two cases — and with both
sets absent no copy is taken (the heap is unchanged) and no snapshot
argument is passed to the constructor. -/
theorem none_idx_equiv_empty (sys_idx : Nat) (cls : BCClass)
    (args : List PyVal) (kwargs : List (String × PyVal))
    (cpi cdi : Option (List Nat)) (system : System) (h : Heap) :
    (_Constraint.instantiate ⟨sys_idx, some ⟨cls, none, cdi, args, kwargs⟩⟩
        system h =
      _Constraint.instantiate ⟨sys_idx, some ⟨cls, some [], cdi, args, kwargs⟩⟩
        system h) ∧
    (_Constraint.instantiate ⟨sys_idx, some ⟨cls, cpi, none, args, kwargs⟩⟩
        system h =
      _Constraint.instantiate ⟨sys_idx, some ⟨cls, cpi, some [], args, kwargs⟩⟩
        system h) ∧
    (∀ bc h2,
      _Constraint.instantiate ⟨sys_idx, some ⟨cls, none, none, args, kwargs⟩⟩
          system h = .ok (bc, h2) →
      h2 = h ∧ bc.call.args = args) := by
  refine ⟨rfl, rfl, ?_⟩
  intro bc h2 hok
  simp only [_Constraint.instantiate, posCopyStep, dirCopyStep, idxTruthy,
    Bool.false_eq_true, if_false] at hok
  split at hok
  · rename_i u hinit
    cases hok
    exact ⟨rfl, rfl⟩
  · cases hok
  · cases hok
  · cases hok

/-- C9 witness: instantiating with `None` index sets equals instantiating
with empty ones, leaves the heap unchanged and passes no snapshot
arguments. -/
theorem none_idx_equiv_empty_witness :
    (_Constraint.instantiate ⟨0, some ⟨sampleBC, none, none, [], []⟩⟩
        (sysA 0) heapA =
      _Constraint.instantiate ⟨0, some ⟨sampleBC, some [], none, [], []⟩⟩
        (sysA 0) heapA) ∧
    heapA = heapA ∧
    (⟨"SampleBC", ⟨[], [("_system", .sys (sysA 0))]⟩⟩ : BCInstance).call.args =
      [] := by
  refine ⟨(none_idx_equiv_empty 0 sampleBC [] [] none none (sysA 0) heapA).1, ?_⟩
  exact (none_idx_equiv_empty 0 sampleBC [] [] none none (sysA 0) heapA).2.2
    ⟨"SampleBC", ⟨[], [("_system", .sys (sysA 0))]⟩⟩ heapA rfl

/-- C10: a second `using` call on an already-configured builder does not
fail because of the earlier call: it behaves exactly as `using` on the
fresh builder, overwriting the stored configuration, and the bound system
index is unchanged. -/
theorem using_twice_overwrites (self : _Constraint) (cls1 : BCClass)
    (args1 : List PyVal) (cpi1 cdi1 : Option (List Nat))
    (kw1 : List (String × PyVal)) (c1 : _Constraint)
    (hfirst : self.using cls1 args1 cpi1 cdi1 kw1 = .ok c1)
    (cls2 : BCClass) (args2 : List PyVal) (cpi2 cdi2 : Option (List Nat))
    (kw2 : List (String × PyVal)) :
    c1.using cls2 args2 cpi2 cdi2 kw2 = self.using cls2 args2 cpi2 cdi2 kw2 ∧
    c1.sys_idx = self.sys_idx ∧
    (cls2.subclassOfConstraintBase = true →
      c1.using cls2 args2 cpi2 cdi2 kw2 =
        .ok ⟨self.sys_idx, some ⟨cls2, cpi2, cdi2, args2, kw2⟩⟩) := by
  rw [_Constraint.using] at hfirst
  split at hfirst
  swap
  · cases hfirst
  cases hfirst
  refine ⟨rfl, rfl, ?_⟩
  intro hsub
  simp [_Constraint.using, hsub]

/-- C10 witness: re-configuring a builder configured with the sample class
using the raising class succeeds and overwrites the stored configuration,
keeping the system index. -/
theorem using_twice_overwrites_witness :
    cAfterFirstUsing.using raisingBC [.int 3] none (some [2]) [("k", .int 1)] =
      cNoCfg.using raisingBC [.int 3] none (some [2]) [("k", .int 1)] ∧
    cAfterFirstUsing.sys_idx = cNoCfg.sys_idx ∧
    cAfterFirstUsing.using raisingBC [.int 3] none (some [2]) [("k", .int 1)] =
      .ok ⟨cNoCfg.sys_idx,
        some ⟨raisingBC, none, some [2], [.int 3], [("k", .int 1)]⟩⟩ := by
  have happ := using_twice_overwrites cNoCfg sampleBC [] (some [0]) none []
    cAfterFirstUsing rfl raisingBC [.int 3] none (some [2]) [("k", .int 1)]
  exact ⟨happ.1, happ.2.1, happ.2.2 rfl⟩

end Elastica
